import Mathlib

/-!
Shallow embedding of the voice-controlled browser pipeline of the Novaa
repository, together with theorems settling the frozen claims about it.

Source layout referenced below:
- `browser.tsx` : the browser screen, `executeFunction` and `normalizeURL`
  (src/ai-mobile/app/(tabs)/browser.tsx, duplicated in src/unnamed/part_001)
- `voiceService.ts` (src/unnamed/part_003, second document): inference mode
  router `parseVoiceCommand`, `parseCommandOnDevice`, `parseCommandViaBackend`,
  module state `currentMode` / `onDeviceAvailable` / `autoInitAttempted`
- `llamaEngine.ts` (src/unnamed/part_002, second document):
  `FunctionGemmaEngine.parseResponse`

Strings are modelled as `List Char` (Lean `String.data`), so that the
JavaScript string primitives used by the source (`trim`, `includes`,
`replace`, `indexOf`, `lastIndexOf`, `substring`) can be given exact
executable counterparts.
-/

/-- JavaScript whitespace as used by `String.prototype.trim` (the ASCII
whitespace characters; the full JS set also has Unicode space separators,
which no claim exercises). -/
def isWsChar (c : Char) : Bool :=
  (c == ' ') || (c == '\t') || (c == '\n') || (c == '\r') ||
  (c == Char.ofNat 11) || (c == Char.ofNat 12)

/-- Left trim: drop leading whitespace. -/
def jsTrimLeft (l : List Char) : List Char := l.dropWhile isWsChar

/-- Right trim: drop trailing whitespace. -/
def jsTrimRight (l : List Char) : List Char := (l.reverse.dropWhile isWsChar).reverse

/-- JavaScript `String.prototype.trim`. -/
def jsTrim (l : List Char) : List Char := jsTrimRight (jsTrimLeft l)

/-- `startsWithL p l` is true when `l` starts with `p`. -/
def startsWithL : List Char → List Char → Bool
  | [], _ => true
  | _ :: _, [] => false
  | a :: as, b :: bs => (a == b) && startsWithL as bs

/-- JavaScript `String.prototype.includes` for a pattern string:
`hasSubstr l p` is true when `p` occurs contiguously inside `l`. -/
def hasSubstr : List Char → List Char → Bool
  | [], p => p.isEmpty
  | c :: t, p => startsWithL p (c :: t) || hasSubstr t p

/-- JavaScript `String.prototype.replace` with a string pattern: replace only
the first occurrence of `pat` (leave `l` unchanged when `pat` does not occur). -/
def jsReplaceOnce (l pat rep : List Char) : List Char :=
  if startsWithL pat l then rep ++ l.drop pat.length
  else
    match l with
    | [] => []
    | c :: t => c :: jsReplaceOnce t pat rep

/-- The scheme separator literal of `normalizeURL` step 2. -/
def sepL : List Char := [':', '/', '/']

/-- The literal prepended by `normalizeURL` step 2. -/
def httpsL : List Char := ['h', 't', 't', 'p', 's', ':', '/', '/']

/-- The replacement literal of `normalizeURL` step 3. -/
def wwwL : List Char := ['h', 't', 't', 'p', 's', ':', '/', '/', 'w', 'w', 'w', '.']

/-- The dot literal tested by `normalizeURL` step 3. -/
def dotL : List Char := ['.']

/-- The `localhost` literal tested by `normalizeURL` step 3. -/
def localhostL : List Char := ['l', 'o', 'c', 'a', 'l', 'h', 'o', 's', 't']

/-- The suffix appended by `normalizeURL` step 3. -/
def comL : List Char := ['.', 'c', 'o', 'm']

/-- `normalizeURL` of browser.tsx lines 141-154, on character lists:
trim; prepend `https://` when no `://` occurs; when the result has no dot
and no `localhost`, replace the first `https://` by `https://www.` and
append `.com`. -/
def normalizeURLCore (l : List Char) : List Char :=
  let n0 := jsTrim l
  let n1 := if hasSubstr n0 sepL then n0 else httpsL ++ n0
  if hasSubstr n1 dotL || hasSubstr n1 localhostL then n1
  else jsReplaceOnce n1 httpsL wwwL ++ comL

/-- `normalizeURL` of browser.tsx lines 141-154. -/
def normalizeURL (s : String) : String := ⟨normalizeURLCore s.data⟩

/- ### Lemmas about the string primitives -/

theorem startsWithL_self_append (p rest : List Char) :
    startsWithL p (p ++ rest) = true := by
  induction p with
  | nil => rfl
  | cons a as ih => simp [startsWithL, ih]

theorem startsWithL_append_right {p l : List Char} (b : List Char)
    (h : startsWithL p l = true) : startsWithL p (l ++ b) = true := by
  induction p generalizing l with
  | nil => rfl
  | cons a as ih =>
    cases l with
    | nil => simp [startsWithL] at h
    | cons c t =>
      simp only [startsWithL, Bool.and_eq_true] at h
      simp [startsWithL, h.1, ih h.2]

theorem hasSubstr_nil_pat (l : List Char) : hasSubstr l [] = true := by
  induction l with
  | nil => rfl
  | cons c t ih => simp [hasSubstr, startsWithL]

theorem hasSubstr_append_left {a : List Char} (b : List Char) {p : List Char}
    (h : hasSubstr a p = true) : hasSubstr (a ++ b) p = true := by
  induction a with
  | nil =>
    simp only [hasSubstr, List.isEmpty_iff] at h
    subst h
    simpa using hasSubstr_nil_pat b
  | cons c t ih =>
    simp only [hasSubstr, Bool.or_eq_true] at h
    rcases h with h | h
    · simp only [List.cons_append, hasSubstr, Bool.or_eq_true]
      exact Or.inl (startsWithL_append_right b h)
    · simp only [List.cons_append, hasSubstr, Bool.or_eq_true]
      exact Or.inr (ih h)

theorem hasSubstr_append_right (a : List Char) {b p : List Char}
    (h : hasSubstr b p = true) : hasSubstr (a ++ b) p = true := by
  induction a with
  | nil => simpa using h
  | cons c t ih => simp only [List.cons_append, hasSubstr, Bool.or_eq_true]; exact Or.inr ih

theorem hasSubstr_cons_head_ne {c p0 : Char} (t ps : List Char)
    (h : (p0 == c) = false) :
    hasSubstr (c :: t) (p0 :: ps) = hasSubstr t (p0 :: ps) := by
  simp [hasSubstr, startsWithL, h]

theorem jsReplaceOnce_pos {l pat : List Char} (rep : List Char)
    (h : startsWithL pat l = true) :
    jsReplaceOnce l pat rep = rep ++ l.drop pat.length := by
  rw [jsReplaceOnce.eq_def, if_pos h]

theorem jsReplaceOnce_neg_nil {pat : List Char} (rep : List Char)
    (h : startsWithL pat [] = false) : jsReplaceOnce [] pat rep = [] := by
  rw [jsReplaceOnce.eq_def, if_neg (by simp [h])]

theorem jsReplaceOnce_neg_cons {c : Char} {t pat : List Char} (rep : List Char)
    (h : startsWithL pat (c :: t) = false) :
    jsReplaceOnce (c :: t) pat rep = c :: jsReplaceOnce t pat rep := by
  rw [jsReplaceOnce.eq_def, if_neg (by simp [h])]

theorem jsReplaceOnce_self_append (rest rep : List Char) :
    jsReplaceOnce (httpsL ++ rest) httpsL rep = rep ++ rest := by
  rw [jsReplaceOnce_pos rep (startsWithL_self_append httpsL rest)]
  simp [List.drop_left]

/-- `jsReplaceOnce` either leaves the list unchanged or inserts the
replacement in place of an occurrence of the pattern. -/
theorem jsReplaceOnce_cases (l pat rep : List Char) :
    jsReplaceOnce l pat rep = l ∨
      ∃ pre post, jsReplaceOnce l pat rep = pre ++ rep ++ post := by
  induction l with
  | nil =>
    by_cases hs : startsWithL pat [] = true
    · rw [jsReplaceOnce_pos rep hs]
      exact Or.inr ⟨[], List.drop pat.length [], rfl⟩
    · rw [jsReplaceOnce_neg_nil rep (Bool.eq_false_iff.mpr hs)]
      exact Or.inl rfl
  | cons c t ih =>
    by_cases hs : startsWithL pat (c :: t) = true
    · rw [jsReplaceOnce_pos rep hs]
      exact Or.inr ⟨[], (c :: t).drop pat.length, rfl⟩
    · rw [jsReplaceOnce_neg_cons rep (Bool.eq_false_iff.mpr hs)]
      rcases ih with h | ⟨pre, post, h⟩
      · exact Or.inl (by rw [h])
      · exact Or.inr ⟨c :: pre, post, by rw [h]; rfl⟩

theorem dropWhile_head_not {p : Char → Bool} {l : List Char} {c : Char}
    (h : (l.dropWhile p).head? = some c) : p c = false := by
  induction l with
  | nil => simp at h
  | cons a t ih =>
    rw [List.dropWhile_cons] at h
    by_cases hp : p a = true
    · rw [if_pos hp] at h
      exact ih h
    · rw [if_neg hp] at h
      simp at h
      rw [← h]
      exact Bool.eq_false_iff.mpr hp

theorem dropWhile_eq_self_of_head {p : Char → Bool} {l : List Char}
    (h : ∀ c, l.head? = some c → p c = false) : l.dropWhile p = l := by
  cases l with
  | nil => rfl
  | cons a t =>
    rw [List.dropWhile_cons, if_neg]
    simp [h a rfl]

theorem dropWhile_dropWhile (p : Char → Bool) (l : List Char) :
    (l.dropWhile p).dropWhile p = l.dropWhile p :=
  dropWhile_eq_self_of_head (fun _ hc => dropWhile_head_not hc)

theorem jsTrimLeft_head_not {l : List Char} {c : Char}
    (h : (jsTrimLeft l).head? = some c) : isWsChar c = false :=
  dropWhile_head_not h

theorem jsTrimRight_idem (l : List Char) : jsTrimRight (jsTrimRight l) = jsTrimRight l := by
  unfold jsTrimRight
  rw [List.reverse_reverse, dropWhile_dropWhile]

theorem dropWhile_append_singleton_not (p : Char → Bool) (r : List Char) {c : Char}
    (h : p c = false) :
    ∃ r2, List.dropWhile p (r ++ [c]) = r2 ++ [c] := by
  induction r with
  | nil => exact ⟨[], by simp [List.dropWhile_cons, h]⟩
  | cons a t ih =>
    by_cases hp : p a = true
    · rcases ih with ⟨r2, hr2⟩
      exact ⟨r2, by simp only [List.cons_append, List.dropWhile_cons, if_pos hp]; exact hr2⟩
    · exact ⟨a :: t, by simp only [List.cons_append, List.dropWhile_cons, if_neg hp]⟩

/-- The head of a trimmed-on-the-right list with non-whitespace head is kept,
so trimming on the left again is the identity. -/
theorem jsTrimLeft_jsTrimRight {l : List Char}
    (h : ∀ c, l.head? = some c → isWsChar c = false) :
    jsTrimLeft (jsTrimRight l) = jsTrimRight l := by
  cases l with
  | nil => rfl
  | cons a t =>
    have ha : isWsChar a = false := h a rfl
    unfold jsTrimRight
    rw [List.reverse_cons]
    rcases dropWhile_append_singleton_not isWsChar t.reverse ha with ⟨r2, hr2⟩
    rw [hr2, List.reverse_append]
    exact dropWhile_eq_self_of_head (fun c hc => by simp at hc; rw [← hc]; exact ha)

theorem jsTrim_idem (l : List Char) : jsTrim (jsTrim l) = jsTrim l := by
  unfold jsTrim
  rw [jsTrimLeft_jsTrimRight (fun c hc => jsTrimLeft_head_not hc), jsTrimRight_idem]

theorem jsTrim_head_not {l : List Char} {c : Char}
    (h : (jsTrim l).head? = some c) : isWsChar c = false := by
  have e : jsTrim l = jsTrimLeft (jsTrimRight (jsTrimLeft l)) :=
    (jsTrimLeft_jsTrimRight (fun _ hc => jsTrimLeft_head_not hc)).symm
  rw [e] at h
  exact jsTrimLeft_head_not h

theorem jsTrim_getLast_not {l : List Char} {c : Char}
    (h : (jsTrim l).getLast? = some c) : isWsChar c = false := by
  unfold jsTrim jsTrimRight at h
  rw [List.getLast?_reverse] at h
  exact dropWhile_head_not h

theorem jsTrim_eq_self {l : List Char}
    (h1 : ∀ c, l.head? = some c → isWsChar c = false)
    (h2 : ∀ c, l.getLast? = some c → isWsChar c = false) :
    jsTrim l = l := by
  unfold jsTrim jsTrimLeft jsTrimRight
  rw [dropWhile_eq_self_of_head h1]
  rw [dropWhile_eq_self_of_head (fun c hc => h2 c (by rwa [List.head?_reverse] at hc))]
  exact List.reverse_reverse l

/- ### Substring facts across the concrete `https://` boundary -/

theorem hasSubstr_httpsL_append (y : List Char) (p0 : Char) (ps : List Char)
    (h1 : (p0 == 'h') = false) (h2 : (p0 == 't') = false) (h3 : (p0 == 'p') = false)
    (h4 : (p0 == 's') = false) (h5 : (p0 == ':') = false) (h6 : (p0 == '/') = false) :
    hasSubstr (httpsL ++ y) (p0 :: ps) = hasSubstr y (p0 :: ps) := by
  show hasSubstr ( 'h' :: 't' :: 't' :: 'p' :: 's' :: ':' :: '/' :: '/' :: y) (p0 :: ps) = _
  rw [hasSubstr_cons_head_ne _ _ h1, hasSubstr_cons_head_ne _ _ h2,
    hasSubstr_cons_head_ne _ _ h2, hasSubstr_cons_head_ne _ _ h3,
    hasSubstr_cons_head_ne _ _ h4, hasSubstr_cons_head_ne _ _ h5,
    hasSubstr_cons_head_ne _ _ h6, hasSubstr_cons_head_ne _ _ h6]

theorem hasSubstr_httpsL_dot (y : List Char) :
    hasSubstr (httpsL ++ y) dotL = hasSubstr y dotL :=
  hasSubstr_httpsL_append y '.' [] (by decide) (by decide) (by decide) (by decide)
    (by decide) (by decide)

theorem hasSubstr_httpsL_localhost (y : List Char) :
    hasSubstr (httpsL ++ y) localhostL = hasSubstr y localhostL :=
  hasSubstr_httpsL_append y 'l' ['o', 'c', 'a', 'l', 'h', 'o', 's', 't'] (by decide)
    (by decide) (by decide) (by decide) (by decide) (by decide)

/- ### The step-3 branch of normalizeURL on a bare hostname -/

/-- When the trimmed input has no `://`, no dot and no `localhost`,
`normalizeURLCore` produces `https://www.` ++ input ++ `.com` (claim C5 at
the level of character lists). -/
theorem normalizeURLCore_bare (h : List Char) (h1 : jsTrim h = h)
    (h2 : hasSubstr h sepL = false) (h3 : hasSubstr h dotL = false)
    (h4 : hasSubstr h localhostL = false) :
    normalizeURLCore h = wwwL ++ h ++ comL := by
  simp only [normalizeURLCore]
  rw [h1, h2]
  simp only [Bool.false_eq_true, if_false]
  rw [hasSubstr_httpsL_dot, hasSubstr_httpsL_localhost, h3, h4]
  simp only [Bool.or_self, Bool.false_eq_true, if_false]
  rw [jsReplaceOnce_self_append]

/- ### Idempotence machinery -/

/-- `normalizeURLCore` is the identity on an already-normalized value:
trimmed, containing `://`, and containing a dot or `localhost`. -/
theorem normalizeURLCore_fix {v : List Char} (ht : jsTrim v = v)
    (hs : hasSubstr v sepL = true)
    (hg : (hasSubstr v dotL || hasSubstr v localhostL) = true) :
    normalizeURLCore v = v := by
  simp only [normalizeURLCore]
  rw [ht, if_pos hs, if_pos hg]

theorem lastWs_append_comL (z0 : List Char) :
    ∀ c, ((z0 ++ comL).getLast? = some c) → isWsChar c = false := by
  intro c hc
  rw [List.getLast?_append_of_ne_nil _ (by simp [comL])] at hc
  have hm : comL.getLast? = some 'm' := by decide
  rw [hm] at hc
  simp at hc
  subst hc
  decide

theorem headWs_jsReplaceOnce_comL {y : List Char}
    (hy : ∀ c, y.head? = some c → isWsChar c = false) :
    ∀ c, ((jsReplaceOnce y httpsL wwwL ++ comL).head? = some c) → isWsChar c = false := by
  intro c hc
  cases y with
  | nil =>
    rw [jsReplaceOnce_neg_nil wwwL (by decide)] at hc
    simp [comL] at hc
    subst hc
    decide
  | cons a t =>
    by_cases hs : startsWithL httpsL (a :: t) = true
    · rw [jsReplaceOnce_pos wwwL hs] at hc
      simp [wwwL] at hc
      subst hc
      decide
    · rw [jsReplaceOnce_neg_cons wwwL (Bool.eq_false_iff.mpr hs)] at hc
      simp at hc
      subst hc
      exact hy _ rfl

theorem jsTrim_eq_self_httpsL_append {y : List Char}
    (hlast : ∀ c, y.getLast? = some c → isWsChar c = false) (hne : y ≠ []) :
    jsTrim (httpsL ++ y) = httpsL ++ y := by
  apply jsTrim_eq_self
  · intro c hc
    simp [httpsL] at hc
    subst hc
    decide
  · intro c hc
    rw [List.getLast?_append_of_ne_nil _ hne] at hc
    exact hlast c hc

/-- `normalizeURL` is idempotent, at the level of character lists (claim C6). -/
theorem normalizeURLCore_idem (l : List Char) :
    normalizeURLCore (normalizeURLCore l) = normalizeURLCore l := by
  by_cases hsep : hasSubstr (jsTrim l) sepL = true
  · by_cases hguard :
      (hasSubstr (jsTrim l) dotL || hasSubstr (jsTrim l) localhostL) = true
    · have e : normalizeURLCore l = jsTrim l := by
        simp only [normalizeURLCore]
        rw [if_pos hsep, if_pos hguard]
      rw [e]
      exact normalizeURLCore_fix (jsTrim_idem l) hsep hguard
    · have e : normalizeURLCore l = jsReplaceOnce (jsTrim l) httpsL wwwL ++ comL := by
        simp only [normalizeURLCore]
        rw [if_pos hsep, if_neg hguard]
      rw [e]
      have hz0 : hasSubstr (jsReplaceOnce (jsTrim l) httpsL wwwL) sepL = true := by
        rcases jsReplaceOnce_cases (jsTrim l) httpsL wwwL with hcase | ⟨pre, post, hcase⟩
        · rw [hcase]; exact hsep
        · rw [hcase]
          exact hasSubstr_append_left post (hasSubstr_append_right pre (by decide))
      apply normalizeURLCore_fix
      · exact jsTrim_eq_self
          (headWs_jsReplaceOnce_comL (fun _ hc => jsTrim_head_not hc))
          (lastWs_append_comL _)
      · exact hasSubstr_append_left comL hz0
      · have hd : hasSubstr (jsReplaceOnce (jsTrim l) httpsL wwwL ++ comL) dotL = true :=
          hasSubstr_append_right _ (by decide)
        simp [hd]
  · by_cases hguard :
      (hasSubstr (httpsL ++ jsTrim l) dotL || hasSubstr (httpsL ++ jsTrim l) localhostL) = true
    · have e : normalizeURLCore l = httpsL ++ jsTrim l := by
        simp only [normalizeURLCore]
        rw [if_neg hsep, if_pos hguard]
      rw [e]
      have hne : jsTrim l ≠ [] := by
        intro h0
        rw [h0, List.append_nil] at hguard
        exact absurd hguard (by decide)
      apply normalizeURLCore_fix
      · exact jsTrim_eq_self_httpsL_append (fun _ hc => jsTrim_getLast_not hc) hne
      · exact hasSubstr_append_left _ (by decide)
      · exact hguard
    · have e : normalizeURLCore l = (wwwL ++ jsTrim l) ++ comL := by
        simp only [normalizeURLCore]
        rw [if_neg hsep, if_neg hguard, jsReplaceOnce_self_append]
      rw [e]
      apply normalizeURLCore_fix
      · apply jsTrim_eq_self
        · intro c hc
          simp [wwwL] at hc
          subst hc
          decide
        · exact lastWs_append_comL _
      · exact hasSubstr_append_left comL (hasSubstr_append_left _ (by decide))
      · have hd : hasSubstr ((wwwL ++ jsTrim l) ++ comL) dotL = true :=
          hasSubstr_append_right _ (by decide)
        rw [hd]
        simp

/- ### Claims C5 and C6 -/

/-- C5: for every bare hostname `h` — a trimmed string containing no `://`,
no dot character, and not containing the literal `localhost` —
`normalizeURL h` equals `"https://www." ++ h ++ ".com"`: the leading
`https://` added by step 2 is replaced with `https://www.` and `.com` is
appended. -/
theorem normalizeURL_bare_hostname (h : String)
    (h1 : jsTrim h.data = h.data)
    (h2 : hasSubstr h.data sepL = false)
    (h3 : hasSubstr h.data dotL = false)
    (h4 : hasSubstr h.data localhostL = false) :
    normalizeURL h = "https://www." ++ h ++ ".com" := by
  apply String.ext
  show normalizeURLCore h.data = _
  rw [normalizeURLCore_bare h.data h1 h2 h3 h4]
  rw [String.data_append, String.data_append]
  rfl

/-- Witness for C5 at the bare hostname `google`. -/
theorem normalizeURL_bare_hostname_witness :
    jsTrim "google".data = "google".data ∧
    hasSubstr "google".data sepL = false ∧
    hasSubstr "google".data dotL = false ∧
    hasSubstr "google".data localhostL = false ∧
    normalizeURL "google" = "https://www.google.com" :=
  ⟨by decide, by decide, by decide, by decide, by
    rw [normalizeURL_bare_hostname "google" (by decide) (by decide) (by decide) (by decide)]
    rfl⟩

/-- C6: `normalizeURL` is idempotent — normalization never double-prefixes a
scheme or double-appends `.com`. -/
theorem normalizeURL_idem (x : String) :
    normalizeURL (normalizeURL x) = normalizeURL x := by
  apply String.ext
  exact normalizeURLCore_idem x.data

/- ### Voice service data model and router (voiceService.ts, src/unnamed/part_003) -/

/-- The normalized Function Call contract: `{ name, parameters }` with all
parameter values strings (voiceService.ts / llamaEngine.ts `FunctionCall`).
`parameters` is an association list modelling a JS object with unique keys. -/
structure FunctionCall where
  name : String
  parameters : List (String × String)
deriving DecidableEq

/-- `InferenceMode` of voiceService.ts lines 69-73. -/
inductive InferenceMode
  | onDevice
  | backend
  | auto
deriving DecidableEq

/-- Errors thrown inside the interpretation layer. `engineNotLoaded` stands
for the thrown `Error('On-device model not loaded')`, `backendNotRunning`
for `Error('Backend server is not running')`, the remaining constructors
for rejections coming out of `engine.parseCommand`. -/
inductive VErr
  | engineNotLoaded
  | backendNotRunning
  | malformedOutput
  | inferenceFailed
deriving DecidableEq

/-- Outcome of the axios POST to `/parse-command`: a parsed success body, an
HTTP error response carrying a status code, or a transport failure with no
response at all (network error / 10s timeout). -/
inductive BackendResp
  | ok (fc : FunctionCall)
  | httpErr (code : Nat)
  | netFail
deriving DecidableEq

/-- The module-level mutable state of voiceService.ts (`currentMode`,
`onDeviceAvailable`, `autoInitAttempted`) together with the engine
singleton's `isLoaded` flag from llamaEngine.ts. -/
structure VoiceServiceState where
  currentMode : InferenceMode
  onDeviceAvailable : Bool
  autoInitAttempted : Bool
  engineLoaded : Bool
deriving DecidableEq

/-- `parseCommandOnDevice` of voiceService.ts lines 158-166: throw
`engineNotLoaded` when the engine reports no model, otherwise return
whatever `engine.parseCommand` produces (`localRes` is that outcome, an
environment parameter of the embedding). -/
def parseCommandOnDevice (s : VoiceServiceState)
    (localRes : Except VErr FunctionCall) : Except VErr FunctionCall :=
  if !s.engineLoaded then .error .engineNotLoaded else localRes

/-- `parseCommandViaBackend` of voiceService.ts lines 171-192: return the
response body on success; in the catch block, rethrow
`'Backend server is not running'` when the error carries a 503 status, and
otherwise degrade to a synthesized `search_web` call on the original text. -/
def parseCommandViaBackend (command : String) (resp : BackendResp) :
    Except VErr FunctionCall :=
  match resp with
  | .ok fc => .ok fc
  | .httpErr code =>
    if code == 503 then .error .backendNotRunning
    else .ok ⟨"search_web", [("query", command)]⟩
  | .netFail => .ok ⟨"search_web", [("query", command)]⟩

/-- `parseVoiceCommand` of voiceService.ts lines 202-236. The second
component records whether the backend endpoint was called. The outer
try/catch of the source logs and rethrows, which is the identity on the
outcome and is therefore not represented. -/
def parseVoiceCommand (s : VoiceServiceState) (command : String)
    (localRes : Except VErr FunctionCall) (resp : BackendResp) :
    Except VErr FunctionCall × Bool :=
  match s.currentMode with
  | .onDevice => (parseCommandOnDevice s localRes, false)
  | .backend => (parseCommandViaBackend command resp, true)
  | .auto =>
    if s.onDeviceAvailable then
      match parseCommandOnDevice s localRes with
      | .ok fc => (.ok fc, false)
      | .error _ => (parseCommandViaBackend command resp, true)
    else (parseCommandViaBackend command resp, true)

/-- A promise outcome resolves (rather than rejects). -/
def resolves : Except VErr FunctionCall → Bool
  | .ok _ => true
  | .error _ => false

/-- Engine-load outcomes seen by the voice service: `loadModel` /
`tryLoadBundledModel` returned true, returned false, or threw. -/
inductive LoadOutcome
  | success
  | failure
  | thrown
deriving DecidableEq

/-- The operations of the voice service that touch its module state:
`autoInitializeOnDevice` (lines 83-107), `initializeOnDeviceInference`
(lines 114-131), `setInferenceMode` (lines 136-139), `parseVoiceCommand`
(lines 202-236, which only reads the state), and the engine's
`unloadModel` (llamaEngine.ts lines 351-362). -/
inductive VoiceOp
  | autoInit (o : LoadOutcome)
  | initExplicit (o : LoadOutcome)
  | setMode (m : InferenceMode)
  | parse (command : String) (localRes : Except VErr FunctionCall) (resp : BackendResp)
  | unloadEngine

/-- State transition of each voice-service operation. -/
def applyVoiceOp (op : VoiceOp) (s : VoiceServiceState) : VoiceServiceState :=
  match op with
  | .autoInit o =>
    if s.autoInitAttempted then s
    else
      match o with
      | .success =>
        { s with autoInitAttempted := true, onDeviceAvailable := true, engineLoaded := true }
      | .failure => { s with autoInitAttempted := true }
      | .thrown => { s with autoInitAttempted := true }
  | .initExplicit o =>
    match o with
    | .success => { s with onDeviceAvailable := true, engineLoaded := true }
    | .failure => s
    | .thrown => s
  | .setMode m => { s with currentMode := m }
  | .parse _ _ _ => s
  | .unloadEngine => { s with engineLoaded := false }

/- ### Claims C1, C2, C4, C7 -/

/-- C1 counterexample: on an HTTP 503 response `parseCommandViaBackend`
rejects with the `backendNotRunning` error instead of resolving to the
synthesized `search_web` Function Call the claim promises. -/
theorem parseCommandViaBackend_503_rejects :
    parseCommandViaBackend "open google" (.httpErr 503) = .error .backendNotRunning ∧
    parseCommandViaBackend "open google" (.httpErr 503) ≠
      .ok ⟨"search_web", [("query", "open google")]⟩ := by
  refine ⟨rfl, ?_⟩
  simp [parseCommandViaBackend]

/-- C1 amended: `parseCommandViaBackend` rejects with the fixed
`'Backend server is not running'` error exactly on a 503 status; on any
other HTTP error status or transport failure it resolves to the synthesized
`search_web` Function Call carrying the original command text, so the raw
transport error is never propagated. -/
theorem parseCommandViaBackend_amended (cmd : String) (code : Nat)
    (h : code ≠ 503) :
    parseCommandViaBackend cmd (.httpErr 503) = .error .backendNotRunning ∧
    parseCommandViaBackend cmd (.httpErr code) = .ok ⟨"search_web", [("query", cmd)]⟩ ∧
    parseCommandViaBackend cmd .netFail = .ok ⟨"search_web", [("query", cmd)]⟩ := by
  refine ⟨rfl, ?_, rfl⟩
  simp [parseCommandViaBackend, h]

/-- Witness for the amended C1 at status 500. -/
theorem parseCommandViaBackend_amended_witness :
    (500 : Nat) ≠ 503 ∧
    (parseCommandViaBackend "open google" (.httpErr 503) = .error .backendNotRunning ∧
     parseCommandViaBackend "open google" (.httpErr 500) =
       .ok ⟨"search_web", [("query", "open google")]⟩ ∧
     parseCommandViaBackend "open google" .netFail =
       .ok ⟨"search_web", [("query", "open google")]⟩) :=
  ⟨by decide, parseCommandViaBackend_amended "open google" 500 (by decide)⟩

/-- C2 counterexample: in AUTO mode with the on-device flag set, a local
failure followed by a 503 from the backend makes `parseVoiceCommand`
reject — contradicting the claim that it never rejects after a local error. -/
theorem parseVoiceCommand_auto_503_rejects :
    resolves (parseVoiceCommand ⟨.auto, true, true, true⟩ "play jazz"
      (.error .inferenceFailed) (.httpErr 503)).1 = false ∧
    (parseVoiceCommand ⟨.auto, true, true, true⟩ "play jazz"
      (.error .inferenceFailed) (.httpErr 503)).1 = .error .backendNotRunning :=
  ⟨rfl, rfl⟩

/-- C2 amended: in AUTO mode a local interpretation error is discarded and
the command is re-routed to the remote path, whose outcome (and backend
call) is returned unchanged; `parseVoiceCommand` therefore resolves, with a
Function Call from the remote path, whenever the backend does not answer
with a 503. -/
theorem parseVoiceCommand_auto_fallback (s : VoiceServiceState) (cmd : String)
    (e : VErr) (resp : BackendResp) (hmode : s.currentMode = .auto) :
    parseVoiceCommand s cmd (.error e) resp = (parseCommandViaBackend cmd resp, true) ∧
    (resp ≠ .httpErr 503 →
      resolves (parseVoiceCommand s cmd (.error e) resp).1 = true) := by
  obtain ⟨m, avail, ai, loaded⟩ := s
  simp only at hmode
  subst hmode
  have h1 : parseVoiceCommand ⟨.auto, avail, ai, loaded⟩ cmd (.error e) resp =
      (parseCommandViaBackend cmd resp, true) := by
    cases avail <;> cases loaded <;> rfl
  refine ⟨h1, fun hne => ?_⟩
  rw [h1]
  cases resp with
  | ok fc => rfl
  | netFail => rfl
  | httpErr code =>
    have hc : code ≠ 503 := fun hc => hne (by rw [hc])
    simp [parseCommandViaBackend, resolves, hc]

/-- Witness for the amended C2: local failure, healthy-network fallback. -/
theorem parseVoiceCommand_auto_fallback_witness :
    parseVoiceCommand ⟨.auto, true, true, true⟩ "play jazz"
      (.error .inferenceFailed) .netFail =
      (parseCommandViaBackend "play jazz" .netFail, true) ∧
    resolves (parseVoiceCommand ⟨.auto, true, true, true⟩ "play jazz"
      (.error .inferenceFailed) .netFail).1 = true :=
  ⟨(parseVoiceCommand_auto_fallback ⟨.auto, true, true, true⟩ "play jazz"
      .inferenceFailed .netFail rfl).1,
   (parseVoiceCommand_auto_fallback ⟨.auto, true, true, true⟩ "play jazz"
      .inferenceFailed .netFail rfl).2 (by simp)⟩

/-- C4: in ON_DEVICE mode with no model loaded, `parseVoiceCommand` rejects
with the `engineNotLoaded` error and the backend endpoint is never called,
whatever the local and remote environments would have produced. -/
theorem parseVoiceCommand_onDevice_notLoaded (avail ai : Bool) (cmd : String)
    (localRes : Except VErr FunctionCall) (resp : BackendResp) :
    parseVoiceCommand ⟨.onDevice, avail, ai, false⟩ cmd localRes resp =
      (.error .engineNotLoaded, false) := rfl

/-- C7: the on-device readiness flag is monotone — no voice-service
operation ever resets it to false once true — and a successful model load
(explicit, or the first auto-initialization) sets it to true. -/
theorem onDeviceAvailable_monotone (op : VoiceOp) (m : InferenceMode)
    (ai loaded flag : Bool) :
    (applyVoiceOp op ⟨m, true, ai, loaded⟩).onDeviceAvailable = true ∧
    (applyVoiceOp (.initExplicit .success) ⟨m, flag, ai, loaded⟩).onDeviceAvailable = true ∧
    (applyVoiceOp (.autoInit .success) ⟨m, flag, false, loaded⟩).onDeviceAvailable = true := by
  refine ⟨?_, rfl, rfl⟩
  cases op with
  | autoInit o => cases o <;> cases ai <;> rfl
  | initExplicit o => cases o <;> rfl
  | setMode m2 => rfl
  | parse c l r => rfl
  | unloadEngine => rfl

/- ### Command executor (browser.tsx lines 94-139) -/

/-- Characters `encodeURIComponent` leaves unescaped: ASCII alphanumerics
and `- _ . ! ~ * ' ( )`. -/
def isUnescapedURI (c : Char) : Bool :=
  c.isAlphanum || (c == '-') || (c == '_') || (c == '.') || (c == '!') ||
  (c == '~') || (c == '*') || (c == Char.ofNat 39) || (c == '(') || (c == ')')

/-- UTF-8 bytes of a character, as natural numbers. -/
def utf8Bytes (c : Char) : List Nat :=
  let n := c.toNat
  if n < 128 then [n]
  else if n < 2048 then [192 + n / 64, 128 + n % 64]
  else if n < 65536 then [224 + n / 4096, 128 + (n / 64) % 64, 128 + n % 64]
  else [240 + n / 262144, 128 + (n / 4096) % 64, 128 + (n / 64) % 64, 128 + n % 64]

/-- Uppercase hexadecimal digit. -/
def hexDigitU (n : Nat) : Char :=
  if n < 10 then Char.ofNat (48 + n) else Char.ofNat (55 + n)

/-- Percent-escape of one byte, `%XY` with uppercase hex. -/
def pctByte (b : Nat) : List Char :=
  ['%', hexDigitU (b / 16), hexDigitU (b % 16)]

/-- JavaScript `encodeURIComponent`. -/
def encodeURIComponent (s : String) : String :=
  ⟨s.data.foldr
    (fun c acc =>
      (if isUnescapedURI c then [c]
       else (utf8Bytes c).foldr (fun b a => pctByte b ++ a) []) ++ acc)
    []⟩

/-- Navigation state owned by the browser screen (`url`, `currentUrl`). -/
structure BrowserState where
  url : String
  currentUrl : String
deriving DecidableEq

/-- `loadURL` of browser.tsx lines 156-159: set both state fields. -/
def loadURL (u : String) : BrowserState :=
  { url := u, currentUrl := u }

/-- The webview side effect performed by a command, if any. -/
inductive NavEffect
  | none
  | load (u : String)
  | back
  | forward
  | reload
deriving DecidableEq

/-- Observable outcome of `executeFunction`: the navigation state, the
webview effect, and the feedback panel contents passed to
`showFeedbackPanel` (transcript, status, isError). -/
structure ExecResult where
  state : BrowserState
  effect : NavEffect
  transcript : String
  status : String
  isError : Bool
deriving DecidableEq

/-- JS property read on the `parameters` object. -/
def jsGet (params : List (String × String)) (k : String) : Option String :=
  (params.find? (fun p => p.1 == k)).map (fun p => p.2)

/-- JS truthiness of an optional string: `undefined` and the empty string
are falsy, any other string is truthy. -/
def truthy : Option String → Bool
  | Option.none => false
  | some s => !s.isEmpty

/-- `executeFunction` of browser.tsx lines 94-139: a switch on the Function
Call name over the five recognized commands, with truthiness checks on
required parameters and a default branch for unknown names. -/
def executeFunction (fc : FunctionCall) (originalCommand : String)
    (s : BrowserState) : ExecResult :=
  if fc.name = "open_browser" then
    if truthy (jsGet fc.parameters "url") then
      let nu := normalizeURL ((jsGet fc.parameters "url").getD "")
      { state := loadURL nu, effect := .load nu, transcript := originalCommand,
        status := "Opening " ++ nu ++ "...", isError := false }
    else
      { state := s, effect := .none, transcript := originalCommand,
        status := "No URL provided", isError := true }
  else if fc.name = "search_web" then
    if truthy (jsGet fc.parameters "query") then
      let q := (jsGet fc.parameters "query").getD ""
      let su := "https://www.google.com/search?q=" ++ encodeURIComponent q
      { state := loadURL su, effect := .load su, transcript := originalCommand,
        status := "Searching for \"" ++ q ++ "\"...", isError := false }
    else
      { state := s, effect := .none, transcript := originalCommand,
        status := "No search query provided", isError := true }
  else if fc.name = "go_back" then
    { state := s, effect := .back, transcript := originalCommand,
      status := "Going back...", isError := false }
  else if fc.name = "go_forward" then
    { state := s, effect := .forward, transcript := originalCommand,
      status := "Going forward...", isError := false }
  else if fc.name = "refresh_page" then
    { state := s, effect := .reload, transcript := originalCommand,
      status := "Refreshing page...", isError := false }
  else
    { state := s, effect := .none, transcript := originalCommand,
      status := "Unknown command: " ++ fc.name, isError := true }

/- ### Claims C8, C9, C10 -/

/-- C8: `open_browser` with no `url` parameter produces the
`No URL provided` error status, leaves `url` and `currentUrl` unchanged,
performs no navigation, and returns normally. -/
theorem executeFunction_missing_url (cmd : String) (s : BrowserState) :
    executeFunction ⟨"open_browser", []⟩ cmd s =
      { state := s, effect := .none, transcript := cmd,
        status := "No URL provided", isError := true } := rfl

/-- C9: a Function Call whose name is none of the five recognized commands
produces the `Unknown command` error status, performs no navigation, and
returns normally. -/
theorem executeFunction_unknown (name cmd : String)
    (params : List (String × String)) (s : BrowserState)
    (h1 : name ≠ "open_browser") (h2 : name ≠ "search_web")
    (h3 : name ≠ "go_back") (h4 : name ≠ "go_forward")
    (h5 : name ≠ "refresh_page") :
    executeFunction ⟨name, params⟩ cmd s =
      { state := s, effect := .none, transcript := cmd,
        status := "Unknown command: " ++ name, isError := true } := by
  rw [executeFunction]
  rw [if_neg h1, if_neg h2, if_neg h3, if_neg h4, if_neg h5]

/-- Witness for C9 at the name `frobnicate`. -/
theorem executeFunction_unknown_witness :
    executeFunction ⟨"frobnicate", []⟩ "do something"
        ⟨"https://www.google.com", "https://www.google.com"⟩ =
      { state := ⟨"https://www.google.com", "https://www.google.com"⟩,
        effect := .none, transcript := "do something",
        status := "Unknown command: frobnicate", isError := true } :=
  executeFunction_unknown "frobnicate" "do something" []
    ⟨"https://www.google.com", "https://www.google.com"⟩
    (by decide) (by decide) (by decide) (by decide) (by decide)

/-- C10: an empty-string required parameter is treated exactly like an
absent one, because presence is tested by JS truthiness: for
`open_browser` with `url:""` and `search_web` with `query:""` the executor
emits the missing-parameter status and performs no navigation. -/
theorem executeFunction_empty_param (cmd : String) (s : BrowserState) :
    executeFunction ⟨"open_browser", [("url", "")]⟩ cmd s =
      executeFunction ⟨"open_browser", []⟩ cmd s ∧
    executeFunction ⟨"open_browser", [("url", "")]⟩ cmd s =
      { state := s, effect := .none, transcript := cmd,
        status := "No URL provided", isError := true } ∧
    executeFunction ⟨"search_web", [("query", "")]⟩ cmd s =
      executeFunction ⟨"search_web", []⟩ cmd s ∧
    executeFunction ⟨"search_web", [("query", "")]⟩ cmd s =
      { state := s, effect := .none, transcript := cmd,
        status := "No search query provided", isError := true } :=
  ⟨rfl, rfl, rfl, rfl⟩

/- ### JSON values and JSON.parse (external JS builtins used by
`FunctionGemmaEngine.parseResponse`, llamaEngine.ts lines 433-475) -/

/-- JSON values as produced by `JSON.parse`. Numbers are modelled as
integers: the model's grammar accepts only integer numeric literals (no
fraction or exponent), which covers every input the claims exercise. -/
inductive Json where
  | null
  | bool (b : Bool)
  | num (n : Int)
  | str (s : String)
  | arr (xs : List Json)
  | obj (kvs : List (String × Json))

/-- Assignment to a key of a JS object: overwrite in place when the key
exists, append otherwise (JS objects keep the first insertion position of
a key). -/
def assocPut {α : Type} (m : List (String × α)) (k : String) (v : α) :
    List (String × α) :=
  if m.any (fun p => p.1 == k) then
    m.map (fun p => if p.1 == k then (k, v) else p)
  else m ++ [(k, v)]

/-- Property read on a JS object (keys are unique, so the first match is
the value). -/
def objGet (kvs : List (String × Json)) (k : String) : Option Json :=
  (kvs.find? (fun p => p.1 == k)).map (fun p => p.2)

/-- JSON whitespace. -/
def isJsonWs (c : Char) : Bool :=
  (c == ' ') || (c == '\t') || (c == '\n') || (c == '\r')

/-- Skip JSON whitespace. -/
def skipJsonWs (l : List Char) : List Char := l.dropWhile isJsonWs

/-- Value of a hexadecimal digit. -/
def hexVal (c : Char) : Option Nat :=
  if c.isDigit then some (c.toNat - 48)
  else if (65 ≤ c.toNat && c.toNat ≤ 70) then some (c.toNat - 55)
  else if (97 ≤ c.toNat && c.toNat ≤ 102) then some (c.toNat - 87)
  else none

/-- Single-character JSON string escapes. -/
def escChar (e : Char) : Option Char :=
  if e = '"' then some '"'
  else if e = '\\' then some '\\'
  else if e = '/' then some '/'
  else if e = 'b' then some (Char.ofNat 8)
  else if e = 'f' then some (Char.ofNat 12)
  else if e = 'n' then some '\n'
  else if e = 'r' then some '\r'
  else if e = 't' then some '\t'
  else none

/-- Body of a JSON string after the opening quote; `acc` collects the
decoded characters in reverse. A `\uXXXX` escape is decoded as a single
code point (surrogate pairs are not combined, which no claim exercises). -/
def pStrBody : List Char → List Char → Option (String × List Char)
  | [], _ => none
  | c :: t, acc =>
    if c = '"' then some (⟨acc.reverse⟩, t)
    else if c = '\\' then
      match t with
      | [] => none
      | e :: t2 =>
        if e = 'u' then
          match t2 with
          | a :: b :: c4 :: d :: t3 =>
            match hexVal a, hexVal b, hexVal c4, hexVal d with
            | some x, some y, some z, some w =>
              pStrBody t3 (Char.ofNat (((x * 16 + y) * 16 + z) * 16 + w) :: acc)
            | _, _, _, _ => none
          | _ => none
        else
          match escChar e with
          | some ec => pStrBody t2 (ec :: acc)
          | none => none
    else if c.toNat < 32 then none
    else pStrBody t (c :: acc)

/-- An integer literal: one or more digits. -/
def pDigits (l : List Char) : Option (Nat × List Char) :=
  let ds := l.takeWhile Char.isDigit
  if ds.isEmpty then none
  else some (ds.foldl (fun acc c => acc * 10 + (c.toNat - 48)) 0,
    l.dropWhile Char.isDigit)

mutual

/-- A JSON value (fuelled recursive descent; the fuel only bounds nesting
and is always ample at the call site in `parseJson`). -/
def pVal : Nat → List Char → Option (Json × List Char)
  | 0, _ => none
  | fuel + 1, l =>
    match skipJsonWs l with
    | [] => none
    | c :: t =>
      if c = Char.ofNat 123 then pObjBody fuel t
      else if c = Char.ofNat 91 then pArrBody fuel t
      else if c = '"' then
        match pStrBody t [] with
        | some (s, rest) => some (.str s, rest)
        | none => none
      else if startsWithL ['n', 'u', 'l', 'l'] (c :: t) then some (.null, t.drop 3)
      else if startsWithL ['t', 'r', 'u', 'e'] (c :: t) then some (.bool true, t.drop 3)
      else if startsWithL ['f', 'a', 'l', 's', 'e'] (c :: t) then
        some (.bool false, t.drop 4)
      else if c = '-' then
        match pDigits t with
        | some (n, rest) => some (.num (-(n : Int)), rest)
        | none => none
      else if c.isDigit then
        match pDigits (c :: t) with
        | some (n, rest) => some (.num (n : Int), rest)
        | none => none
      else none

/-- Object body after the opening brace. -/
def pObjBody : Nat → List Char → Option (Json × List Char)
  | 0, _ => none
  | fuel + 1, l =>
    match skipJsonWs l with
    | [] => none
    | c :: t =>
      if c = Char.ofNat 125 then some (.obj [], t)
      else pObjMembers fuel [] (c :: t)

/-- Members of an object; duplicate keys overwrite as in `JSON.parse`. -/
def pObjMembers : Nat → List (String × Json) → List Char →
    Option (Json × List Char)
  | 0, _, _ => none
  | fuel + 1, acc, l =>
    match skipJsonWs l with
    | [] => none
    | c :: t =>
      if c = '"' then
        match pStrBody t [] with
        | some (k, rest) =>
          match skipJsonWs rest with
          | c2 :: t2 =>
            if c2 = ':' then
              match pVal fuel t2 with
              | some (v, rest2) =>
                match skipJsonWs rest2 with
                | c3 :: t3 =>
                  if c3 = ',' then pObjMembers fuel (assocPut acc k v) t3
                  else if c3 = Char.ofNat 125 then
                    some (.obj (assocPut acc k v), t3)
                  else none
                | [] => none
              | none => none
            else none
          | [] => none
        | none => none
      else none

/-- Array body after the opening bracket. -/
def pArrBody : Nat → List Char → Option (Json × List Char)
  | 0, _ => none
  | fuel + 1, l =>
    match skipJsonWs l with
    | [] => none
    | c :: t =>
      if c = Char.ofNat 93 then some (.arr [], t)
      else pArrElems fuel [] (c :: t)

/-- Elements of an array. -/
def pArrElems : Nat → List Json → List Char → Option (Json × List Char)
  | 0, _, _ => none
  | fuel + 1, acc, l =>
    match pVal fuel l with
    | some (v, rest) =>
      match skipJsonWs rest with
      | c :: t =>
        if c = ',' then pArrElems fuel (acc ++ [v]) t
        else if c = Char.ofNat 93 then some (.arr (acc ++ [v]), t)
        else none
      | [] => none
    | none => none

end

/-- `JSON.parse`: a complete parse of the input as one JSON value. -/
def parseJson (l : List Char) : Option Json :=
  match pVal (3 * l.length + 3) l with
  | some (j, rest) => if (skipJsonWs rest).isEmpty then some j else none
  | none => none

mutual

/-- JS `String(value)` coercion as applied to a parsed JSON value:
`null`/booleans/numbers print themselves, strings pass through, arrays
join their elements with commas (`null` elements become empty), and plain
objects print `[object Object]`. -/
def jsToString : Json → String
  | .null => "null"
  | .bool b => cond b "true" "false"
  | .num n => toString n
  | .str s => s
  | .arr xs => String.intercalate "," (jsArrElems xs)
  | .obj _ => "[object Object]"

/-- Elements of an array under `Array.prototype.toString`. -/
def jsArrElems : List Json → List String
  | [] => []
  | j :: t =>
    (match j with
     | .null => ""
     | _ => jsToString j) :: jsArrElems t

end

/- ### FunctionGemmaEngine.parseResponse (llamaEngine.ts lines 433-475) -/

/-- The `<end_of_turn>` marker stripped by `parseResponse`. -/
def eotL : List Char :=
  ['<', 'e', 'n', 'd', '_', 'o', 'f', '_', 't', 'u', 'r', 'n', '>']

/-- `response.replace(/<end_of_turn>/g, '')`: delete every occurrence of
the marker, scanning left to right. -/
def removeEot : Nat → List Char → List Char
  | 0, l => l
  | fuel + 1, l =>
    if startsWithL eotL l then removeEot fuel (l.drop 13)
    else
      match l with
      | [] => []
      | c :: t => c :: removeEot fuel t

/-- The cleaned response text: markers removed, then trimmed
(llamaEngine.ts lines 435-437). -/
def cleanedOf (response : String) : List Char :=
  jsTrim (removeEot response.data.length response.data)

/-- JS `indexOf` for one character. -/
def firstIdxOf (l : List Char) (c : Char) : Option Nat :=
  l.findIdx? (fun x => x == c)

/-- JS `lastIndexOf` for one character. -/
def lastIdxOf (l : List Char) (c : Char) : Option Nat :=
  match l.reverse.findIdx? (fun x => x == c) with
  | some k => some (l.length - 1 - k)
  | none => none

/-- JS `substring(a, b)`: clamps to the string and swaps the endpoints
when `a > b`. -/
def jsSubstring (l : List Char) (a b : Nat) : List Char :=
  (l.take (max a b)).drop (min a b)

/-- The extracted text that `parseResponse` hands to `JSON.parse`: from the
first `U+007B` to the last `U+007D` of the cleaned response. -/
def spanOf (response : String) : List Char :=
  match firstIdxOf (cleanedOf response) (Char.ofNat 123),
      lastIdxOf (cleanedOf response) (Char.ofNat 125) with
  | some i, some j => jsSubstring (cleanedOf response) i (j + 1)
  | _, _ => []

/-- Failures of `parseResponse`: `noJsonFound` is the throw at line 444;
the others happen inside the try block and are rewrapped by the catch at
line 473 (`jsonParseFailed` for a `JSON.parse` throw, `invalidName` for the
validation throw at line 455, `nullRoot` for the TypeError raised by
reading `.name` on a null root). -/
inductive PErr
  | noJsonFound
  | jsonParseFailed
  | invalidName
  | nullRoot
deriving DecidableEq

/-- JS truthiness of a JSON value. -/
def jsTruthyJson : Json → Bool
  | .null => false
  | .bool b => b
  | .num n => !(n == 0)
  | .str s => !s.isEmpty
  | .arr _ => true
  | .obj _ => true

/-- JS `typeof x === 'object'` on a JSON value (true for objects, arrays
and null). -/
def isObjTypeof : Json → Bool
  | .null => true
  | .arr _ => true
  | .obj _ => true
  | _ => false

/-- `Object.entries` on a parsed JSON value: object members in order, or
index-keyed array elements. -/
def entriesOf : Json → List (String × Json)
  | .obj kvs => kvs
  | .arr xs => xs.enum.map (fun p => (toString p.1, p.2))
  | _ => []

/-- The parameters-stringification loop of llamaEngine.ts lines 459-465:
when `parsed.parameters` is truthy and of object type, assign
`String(value)` for each entry; otherwise the parameters stay empty. -/
def stringifyParams (o : Option Json) : List (String × String) :=
  match o with
  | some j =>
    if jsTruthyJson j && isObjTypeof j then
      (entriesOf j).foldl (fun m kv => assocPut m kv.1 (jsToString kv.2)) []
    else []
  | none => []

/-- Validation and stringification applied to the parsed value
(llamaEngine.ts lines 453-470): `parsed.name` must be a truthy string
(reading `.name` on a null root throws a TypeError instead), and the
parameters are stringified. -/
def validateParsed : Json → Except PErr FunctionCall
  | .null => .error .nullRoot
  | .obj kvs =>
    match objGet kvs "name" with
    | some (.str s) =>
      if s.isEmpty then .error .invalidName
      else .ok ⟨s, stringifyParams (objGet kvs "parameters")⟩
    | _ => .error .invalidName
  | _ => .error .invalidName

/-- The try block of `parseResponse` (llamaEngine.ts lines 450-474) applied
to the extracted text: `JSON.parse` it, then validate and stringify. -/
def buildFunctionCall (span : List Char) : Except PErr FunctionCall :=
  match parseJson span with
  | none => .error .jsonParseFailed
  | some parsed => validateParsed parsed

/-- `FunctionGemmaEngine.parseResponse` (llamaEngine.ts lines 433-475). -/
def parseResponse (response : String) : Except PErr FunctionCall :=
  match firstIdxOf (cleanedOf response) (Char.ofNat 123),
      lastIdxOf (cleanedOf response) (Char.ofNat 125) with
  | some i, some j => buildFunctionCall (jsSubstring (cleanedOf response) i (j + 1))
  | _, _ => .error .noJsonFound

/-- Scan for the matching close brace, counting depth. -/
def balScan : List Char → Nat → List Char → Option (List Char)
  | [], _, _ => none
  | c :: t, depth, acc =>
    if c = Char.ofNat 123 then balScan t (depth + 1) (c :: acc)
    else if c = Char.ofNat 125 then
      if depth = 1 then some (c :: acc).reverse
      else if depth = 0 then none
      else balScan t (depth - 1) (c :: acc)
    else balScan t depth (c :: acc)

/-- The first balanced `U+007B ... U+007D` block of the text. -/
def firstBalancedSpan (l : List Char) : Option (List Char) :=
  match l.dropWhile (fun c => !(c == Char.ofNat 123)) with
  | [] => none
  | c :: t => balScan (c :: t) 0 []

/-- The extraction the spec describes, for comparison with the code:
"extracts the first balanced `{...}` JSON object from the generated text",
with everything after the extraction unchanged. -/
def parseResponseSpecReading (response : String) : Except PErr FunctionCall :=
  match firstBalancedSpan (cleanedOf response) with
  | some span => buildFunctionCall span
  | none => .error .noJsonFound

/- ### Claim C3 -/

/-- The validated name of a parsed response: present, a string, and truthy
(non-empty); `none` when the validation at llamaEngine.ts line 454 throws. -/
def jsNameOf : Json → Option String
  | .obj kvs =>
    match objGet kvs "name" with
    | some (.str s) => if s.isEmpty then none else some s
    | _ => none
  | _ => none

theorem assocPut_mem {α : Type} {m : List (String × α)} {k : String} {v : α}
    {p : String × α} (h : p ∈ assocPut m k v) : p ∈ m ∨ p = (k, v) := by
  unfold assocPut at h
  by_cases hc : m.any (fun q => q.1 == k) = true
  · rw [if_pos hc] at h
    rcases List.mem_map.mp h with ⟨q, hq, he⟩
    by_cases hqk : (q.1 == k) = true
    · rw [if_pos hqk] at he
      exact Or.inr he.symm
    · rw [if_neg hqk] at he
      exact Or.inl (he ▸ hq)
  · rw [if_neg hc] at h
    rcases List.mem_append.mp h with h | h
    · exact Or.inl h
    · simp at h
      exact Or.inr h

theorem foldl_assocPut_values (entries : List (String × Json))
    (init : List (String × String))
    (hinit : ∀ p ∈ init, ∃ jv, p.2 = jsToString jv) :
    ∀ p ∈ entries.foldl (fun m kv => assocPut m kv.1 (jsToString kv.2)) init,
      ∃ jv, p.2 = jsToString jv := by
  induction entries generalizing init with
  | nil => simpa using hinit
  | cons e t ih =>
    simp only [List.foldl_cons]
    apply ih
    intro p hp
    rcases assocPut_mem hp with h | h
    · exact hinit p h
    · exact ⟨e.2, by rw [h]⟩

theorem stringifyParams_values (o : Option Json) :
    ∀ p ∈ stringifyParams o, ∃ jv, p.2 = jsToString jv := by
  cases o with
  | none => simp [stringifyParams]
  | some j =>
    by_cases hc : (jsTruthyJson j && isObjTypeof j) = true
    · simp only [stringifyParams]
      rw [if_pos hc]
      exact foldl_assocPut_values (entriesOf j) [] (by simp)
    · simp only [stringifyParams]
      rw [if_neg hc]
      simp

theorem buildFunctionCall_ok {span : List Char} {fc : FunctionCall}
    (h : buildFunctionCall span = .ok fc) :
    ∃ kvs, parseJson span = some (.obj kvs) ∧
      objGet kvs "name" = some (.str fc.name) ∧ fc.name ≠ "" ∧
      fc.parameters = stringifyParams (objGet kvs "parameters") ∧
      ∀ p ∈ fc.parameters, ∃ jv, p.2 = jsToString jv := by
  unfold buildFunctionCall at h
  split at h
  · exact absurd h (by simp)
  · rename_i parsed hp
    cases parsed with
    | null => simp [validateParsed] at h
    | bool b => simp [validateParsed] at h
    | num n => simp [validateParsed] at h
    | str s => simp [validateParsed] at h
    | arr xs => simp [validateParsed] at h
    | obj kvs =>
      simp only [validateParsed] at h
      split at h
      · rename_i s heq
        split at h
        · exact absurd h (by simp)
        · rename_i hs
          injection h with h2
          subst h2
          refine ⟨kvs, hp, heq, ?_, rfl, stringifyParams_values _⟩
          intro he
          have he2 : s = "" := he
          exact hs (by rw [he2]; rfl)
      · exact absurd h (by simp)

theorem buildFunctionCall_err {span : List Char} {parsed : Json}
    (hp : parseJson span = some parsed) (hn : jsNameOf parsed = none) :
    ∃ e, buildFunctionCall span = .error e := by
  have hb : buildFunctionCall span = validateParsed parsed := by
    unfold buildFunctionCall
    rw [hp]
  rw [hb]
  cases parsed with
  | null => exact ⟨.nullRoot, rfl⟩
  | bool b => exact ⟨.invalidName, rfl⟩
  | num n => exact ⟨.invalidName, rfl⟩
  | str s => exact ⟨.invalidName, rfl⟩
  | arr xs => exact ⟨.invalidName, rfl⟩
  | obj kvs =>
    simp only [jsNameOf] at hn
    simp only [validateParsed]
    cases hg : objGet kvs "name" with
    | none => exact ⟨.invalidName, rfl⟩
    | some v =>
      rw [hg] at hn
      cases v with
      | str s =>
        by_cases hs : s.isEmpty = true
        · exact ⟨.invalidName, by simp [hs]⟩
        · simp [hs] at hn
      | null => exact ⟨.invalidName, rfl⟩
      | bool b => exact ⟨.invalidName, rfl⟩
      | num n => exact ⟨.invalidName, rfl⟩
      | arr xs => exact ⟨.invalidName, rfl⟩
      | obj kvs2 => exact ⟨.invalidName, rfl⟩

/-- C3 counterexample: on a generation holding two JSON objects, extracting
the first balanced block (as the claim describes) would succeed with
`go_back`, but `parseResponse` takes the text from the first open brace to
the LAST close brace, hands the two-object span to `JSON.parse`, and fails
with a MalformedOutput error. -/
theorem parseResponse_not_first_balanced :
    parseResponse "\x7b\"name\":\"go_back\"\x7d \x7b\x7d" = .error .jsonParseFailed ∧
    parseResponseSpecReading "\x7b\"name\":\"go_back\"\x7d \x7b\x7d" =
      .ok ⟨"go_back", []⟩ :=
  ⟨rfl, rfl⟩

/-- C3 amended: `parseResponse` strips `<end_of_turn>` markers, trims, and
extracts the substring from the FIRST open brace to the LAST close brace
(not the first balanced object); it fails with a MalformedOutput error when
no open or close brace is present, when the extracted span is not valid
JSON, or when the `name` field is missing, not a string, or empty; and on
success the name is the (non-empty) string value of the parsed span's
`name` field while every value of `parameters` is the JS stringification of
the corresponding JSON value. -/
theorem parseResponse_spec (response : String) :
    ((firstIdxOf (cleanedOf response) (Char.ofNat 123) = none ∨
        lastIdxOf (cleanedOf response) (Char.ofNat 125) = none) →
      parseResponse response = .error .noJsonFound) ∧
    (∀ i j, firstIdxOf (cleanedOf response) (Char.ofNat 123) = some i →
      lastIdxOf (cleanedOf response) (Char.ofNat 125) = some j →
      parseJson (jsSubstring (cleanedOf response) i (j + 1)) = none →
      parseResponse response = .error .jsonParseFailed) ∧
    (∀ parsed, parseJson (spanOf response) = some parsed →
      jsNameOf parsed = none → ∃ e, parseResponse response = .error e) ∧
    (∀ fc, parseResponse response = .ok fc →
      ∃ kvs, parseJson (spanOf response) = some (.obj kvs) ∧
        objGet kvs "name" = some (.str fc.name) ∧ fc.name ≠ "" ∧
        fc.parameters = stringifyParams (objGet kvs "parameters") ∧
        ∀ p ∈ fc.parameters, ∃ jv, p.2 = jsToString jv) := by
  refine ⟨?_, ?_, ?_, ?_⟩
  · intro h
    rcases hf : firstIdxOf (cleanedOf response) (Char.ofNat 123) with _ | i
    · simp [parseResponse, hf]
    · rcases hl : lastIdxOf (cleanedOf response) (Char.ofNat 125) with _ | j
      · simp [parseResponse, hf, hl]
      · rw [hf, hl] at h
        simp at h
  · intro i j hi hj hp
    simp only [parseResponse, hi, hj]
    simp [buildFunctionCall, hp]
  · intro parsed hp hn
    rcases hf : firstIdxOf (cleanedOf response) (Char.ofNat 123) with _ | i
    · rw [show spanOf response = [] from by simp [spanOf, hf]] at hp
      exact Option.noConfusion hp
    · rcases hl : lastIdxOf (cleanedOf response) (Char.ofNat 125) with _ | j
      · rw [show spanOf response = [] from by simp [spanOf, hf, hl]] at hp
        exact Option.noConfusion hp
      · have he : parseResponse response =
            buildFunctionCall (jsSubstring (cleanedOf response) i (j + 1)) := by
          simp [parseResponse, hf, hl]
        have hspan : spanOf response = jsSubstring (cleanedOf response) i (j + 1) := by
          simp [spanOf, hf, hl]
        rw [hspan] at hp
        rw [he]
        exact buildFunctionCall_err hp hn
  · intro fc hok
    rcases hf : firstIdxOf (cleanedOf response) (Char.ofNat 123) with _ | i
    · have he : parseResponse response = .error .noJsonFound := by
        simp [parseResponse, hf]
      rw [he] at hok
      exact absurd hok (by simp)
    · rcases hl : lastIdxOf (cleanedOf response) (Char.ofNat 125) with _ | j
      · have he : parseResponse response = .error .noJsonFound := by
          simp [parseResponse, hf, hl]
        rw [he] at hok
        exact absurd hok (by simp)
      · have he : parseResponse response =
            buildFunctionCall (jsSubstring (cleanedOf response) i (j + 1)) := by
          simp [parseResponse, hf, hl]
        have hspan : spanOf response = jsSubstring (cleanedOf response) i (j + 1) := by
          simp [spanOf, hf, hl]
        rw [he] at hok
        rw [hspan]
        exact buildFunctionCall_ok hok

/-- Witness for the amended C3: a successful parse whose numeric `url`
parameter is stringified to `"5"`. -/
theorem parseResponse_spec_witness :
    ∃ kvs,
      parseJson (spanOf
        "\x7b\"name\":\"open_browser\",\"parameters\":\x7b\"url\":5\x7d\x7d") =
        some (.obj kvs) ∧
      objGet kvs "name" = some (.str "open_browser") ∧
      ("open_browser" : String) ≠ "" ∧
      ([("url", "5")] : List (String × String)) =
        stringifyParams (objGet kvs "parameters") ∧
      ∀ p ∈ ([("url", "5")] : List (String × String)), ∃ jv, p.2 = jsToString jv :=
  (parseResponse_spec
    "\x7b\"name\":\"open_browser\",\"parameters\":\x7b\"url\":5\x7d\x7d").2.2.2
    ⟨"open_browser", [("url", "5")]⟩ rfl
